import Mathlib

/-!
Verification of the repman repository manager (src/main.rs) against its
specification. The Rust program is shallowly embedded: external command
results become explicit values, the filesystem becomes explicit entry
lists, and each command handler becomes a pure function returning its
printed output, the external commands it invoked, the directories it
created, and its exit result.
-/

namespace Repman

/-! ## String primitives used by the Rust code -/

/-- Rust str starts-with on character lists. -/
def charsStart : List Char → List Char → Bool
  | [], _ => true
  | _ :: _, [] => false
  | p :: ps, c :: cs => p == c && charsStart ps cs

/-- Rust str substring containment on character lists. -/
def charsContains (pat : List Char) : List Char → Bool
  | [] => pat.isEmpty
  | c :: cs => charsStart pat (c :: cs) || charsContains pat cs

/-- Rust s.contains(pat) for strings. -/
def strContains (s pat : String) : Bool :=
  charsContains pat.toList s.toList

/-- Rust str::to_lowercase (ASCII-faithful model). -/
def strToLower (s : String) : String :=
  String.mk (s.toList.map Char.toLower)

/-- Rust line.trim().is_empty(): the line consists of whitespace only. -/
def isBlank (s : String) : Bool :=
  s.toList.all Char.isWhitespace

/-- Rust char-separator split (str::split(sep)): always at least one part. -/
def splitOnChar (sep : Char) : List Char → List (List Char)
  | [] => [[]]
  | c :: cs =>
    if c = sep then [] :: splitOnChar sep cs
    else
      match splitOnChar sep cs with
      | [] => [[c]]
      | r :: rs => (c :: r) :: rs

/-- name.split('/') collected into strings. -/
def splitSlash (s : String) : List String :=
  (splitOnChar '/' s.toList).map String.mk

/-! ## External commands and their results -/

/-- Result of a completed external command: exit success flag plus
captured stdout lines and stderr text. -/
structure CmdResult where
  success : Bool
  stdout : List String
  stderr : String
deriving Repr, DecidableEq

/-- The external git invocations the program can make, each against a
working directory (a path given as segments). -/
inductive ExtCmd where
  | statusQuery (dir : List String)
  | cloneCmd (url : String) (dir : List String)
  | stageAll (dir : List String)
  | diffCachedQuiet (dir : List String)
  | commitCmd (dir : List String) (msg : String)
  | pushCmd (dir : List String)
deriving Repr, DecidableEq

/-- Whether a command mutates the repository or remote state.
The status query and the staged-diff emptiness query are reads. -/
def ExtCmd.isMutating : ExtCmd → Bool
  | .statusQuery _ => false
  | .diffCachedQuiet _ => false
  | _ => true

def ExtCmd.isStatusQuery : ExtCmd → Bool
  | .statusQuery _ => true
  | _ => false

def ExtCmd.isCommitOrPush : ExtCmd → Bool
  | .commitCmd _ _ => true
  | .pushCmd _ => true
  | _ => false

/-- The environment: what each external command invocation returns.
none models a spawn failure (the Rust and operator propagates it). -/
def World := ExtCmd → Option CmdResult

/-- A command that did not complete successfully: either it could not be
spawned or it exited nonzero. -/
def cmdFailed : Option CmdResult → Bool
  | none => true
  | some r => !r.success

/-- Exit code of a handler result as seen by main: errors exit nonzero. -/
def exitCode : Except String Unit → Nat
  | .ok _ => 0
  | .error _ => 1

/-! ## Status classifier (get_git_status, main.rs lines 91-124) -/

/-- The status taxonomy printed by the program. -/
inductive StatusLabel where
  | Clean
  | Dirty
  | Ahead
  | Behind
  | NotARepo
  | Error
deriving Repr, DecidableEq

/-- get_git_status classification of one completed status query:
non-success means not a git repository; no output lines means clean;
the first (branch) line is checked for the ahead marker then the behind
marker; otherwise any non-blank remaining line means dirty. -/
def get_git_status (res : CmdResult) : StatusLabel :=
  if res.success = false then .NotARepo
  else
    match res.stdout with
    | [] => .Clean
    | branchLine :: rest =>
      if strContains branchLine "[ahead" then .Ahead
      else if strContains branchLine "[behind" then .Behind
      else if rest.any (fun l => !(isBlank l)) then .Dirty
      else .Clean

/-- The full per-repository classification: a spawn failure surfaces as
an error value (the Rust function returns Result). -/
def run_git_status : Option CmdResult → Except Unit StatusLabel
  | none => .error ()
  | some res => .ok (get_git_status res)

/-- show_status converts a per-repository classification failure to the
degraded Error label (unwrap_or_else in main.rs line 159). -/
def statusFor (w : World) (p : List String) : StatusLabel :=
  match run_git_status (w (.statusQuery p)) with
  | .error _ => .Error
  | .ok l => l

/-- Claim C1: the classifier returns NotARepo on a non-success query;
Clean on empty output; Ahead when the first (branch) line contains the
ahead marker and Behind when it contains the behind marker (ahead
checked first), in each case regardless of the remaining change lines;
otherwise Dirty exactly when some line after the first is non-blank. -/
theorem get_git_status_classification (res : CmdResult) :
    (res.success = false → get_git_status res = .NotARepo) ∧
    (res.success = true → res.stdout = [] → get_git_status res = .Clean) ∧
    (∀ b rest, res.success = true → res.stdout = b :: rest →
      strContains b "[ahead" = true → get_git_status res = .Ahead) ∧
    (∀ b rest, res.success = true → res.stdout = b :: rest →
      strContains b "[ahead" = false → strContains b "[behind" = true →
      get_git_status res = .Behind) ∧
    (∀ b rest, res.success = true → res.stdout = b :: rest →
      strContains b "[ahead" = false → strContains b "[behind" = false →
      (rest.any (fun l => !(isBlank l)) = true → get_git_status res = .Dirty) ∧
      (rest.any (fun l => !(isBlank l)) = false → get_git_status res = .Clean)) := by
  obtain ⟨succ, out, err⟩ := res
  refine ⟨?_, ?_, ?_, ?_, ?_⟩
  · intro h; subst h; simp [get_git_status]
  · intro h hout; subst h; subst hout; simp [get_git_status]
  · intro b rest h hout hahead
    subst h; subst hout
    simp [get_git_status, hahead]
  · intro b rest h hout hahead hbehind
    subst h; subst hout
    simp [get_git_status, hahead, hbehind]
  · intro b rest h hout hahead hbehind
    subst h; subst hout
    constructor
    · intro hdirty; simp [get_git_status, hahead, hbehind, hdirty]
    · intro hclean; simp [get_git_status, hahead, hbehind, hclean]

/-- Concrete runs of the classifier exercising every case of the
classification theorem. -/
theorem get_git_status_classification_witness :
    get_git_status ⟨false, [], ""⟩ = .NotARepo ∧
    get_git_status ⟨true, [], ""⟩ = .Clean ∧
    get_git_status ⟨true, ["## m [ahead 1]", " M x"], ""⟩ = .Ahead ∧
    get_git_status ⟨true, ["## m [behind 2]", " M x"], ""⟩ = .Behind ∧
    get_git_status ⟨true, ["## m", " M x"], ""⟩ = .Dirty ∧
    get_git_status ⟨true, ["## m", "  "], ""⟩ = .Clean := by
  refine ⟨(get_git_status_classification _).1 rfl,
    (get_git_status_classification _).2.1 rfl rfl,
    (get_git_status_classification _).2.2.1 _ _ rfl rfl (by decide),
    (get_git_status_classification _).2.2.2.1 _ _ rfl rfl (by decide) (by decide),
    ((get_git_status_classification _).2.2.2.2 _ _ rfl rfl (by decide)
      (by decide)).1 (by decide),
    ((get_git_status_classification _).2.2.2.2 _ _ rfl rfl (by decide)
      (by decide)).2 (by decide)⟩

/-! ## Filesystem model and the repository scanner -/

/-- A directory entry one level below an owner directory. -/
structure SubEntry where
  name : String
  isDir : Bool
deriving Repr, DecidableEq

/-- A directory entry directly under the repository root, together with
the entries listed inside it. -/
structure RootEntry where
  name : String
  isDir : Bool
  entries : List SubEntry
deriving Repr, DecidableEq

/-- A discovered repository: owner, name, and full path (in segments). -/
structure RepositoryRef where
  owner : String
  name : String
  path : List String
deriving Repr, DecidableEq

/-- The two-level walk shared by show_status and cd_repository: for each
directory entry under the root, each directory entry inside it yields
one repository reference; non-directory entries are skipped. -/
def scan (rootPath : List String) (es : List RootEntry) : List RepositoryRef :=
  (es.filter (·.isDir)).flatMap fun o =>
    (o.entries.filter (·.isDir)).map fun r =>
      ⟨o.name, r.name, rootPath ++ [o.name, r.name]⟩

/-- Claim C6: the scan yields exactly one reference per leaf directory
(one per directory sub-entry of each directory root entry), a reference
exists precisely for such directory/directory pairs (non-directory
entries at either level yield nothing), and every reference's path is
root/owner/name. -/
theorem scan_one_ref_per_leaf_dir (rootPath : List String) (es : List RootEntry) :
    ((scan rootPath es).length =
      ((es.filter (·.isDir)).map
        (fun o => (o.entries.filter (·.isDir)).length)).sum) ∧
    (∀ ref, ref ∈ scan rootPath es ↔
      ∃ o ∈ es, o.isDir = true ∧ ∃ r ∈ o.entries, r.isDir = true ∧
        ref = ⟨o.name, r.name, rootPath ++ [o.name, r.name]⟩) ∧
    (∀ ref ∈ scan rootPath es, ref.path = rootPath ++ [ref.owner, ref.name]) := by
  refine ⟨?_, ?_, ?_⟩
  · simp only [scan, List.length_flatMap]
    apply congrArg List.sum
    apply List.map_congr_left
    intro o _
    simp
  · intro ref
    simp only [scan, List.mem_flatMap, List.mem_map, List.mem_filter]
    constructor
    · rintro ⟨o, ⟨ho, hodir⟩, r, ⟨hr, hrdir⟩, rfl⟩
      exact ⟨o, ho, hodir, r, hr, hrdir, rfl⟩
    · rintro ⟨o, ho, hodir, r, hr, hrdir, rfl⟩
      exact ⟨o, ⟨ho, hodir⟩, r, ⟨hr, hrdir⟩, rfl⟩
  · intro ref href
    simp only [scan, List.mem_flatMap, List.mem_map, List.mem_filter] at href
    obtain ⟨o, _, r, _, rfl⟩ := href
    rfl

/-- Concrete scan run: one owner directory holding one repository
directory and one file, plus one file at root level, yields exactly the
single repository reference with path root/owner/name. -/
theorem scan_one_ref_per_leaf_dir_witness :
    scan ["repo"] [⟨"alice", true, [⟨"proj", true⟩, ⟨"note.txt", false⟩]⟩,
        ⟨"stray.txt", false, []⟩] =
      [⟨"alice", "proj", ["repo", "alice", "proj"]⟩] ∧
    (⟨"alice", "proj", ["repo", "alice", "proj"]⟩ : RepositoryRef) ∈
      scan ["repo"] [⟨"alice", true, [⟨"proj", true⟩, ⟨"note.txt", false⟩]⟩,
        ⟨"stray.txt", false, []⟩] ∧
    (⟨"alice", "proj", ["repo", "alice", "proj"]⟩ : RepositoryRef).path =
      ["repo"] ++ ["alice", "proj"] := by
  refine ⟨by decide, ?_, ?_⟩
  · exact ((scan_one_ref_per_leaf_dir ["repo"]
        [⟨"alice", true, [⟨"proj", true⟩, ⟨"note.txt", false⟩]⟩,
          ⟨"stray.txt", false, []⟩]).2.1 _).2
      ⟨⟨"alice", true, [⟨"proj", true⟩, ⟨"note.txt", false⟩]⟩, by decide, rfl,
        ⟨"proj", true⟩, by decide, rfl, rfl⟩
  · exact (scan_one_ref_per_leaf_dir ["repo"]
        [⟨"alice", true, [⟨"proj", true⟩, ⟨"note.txt", false⟩]⟩,
          ⟨"stray.txt", false, []⟩]).2.2 _
      (by decide)

/-! ## Status command (show_status, main.rs lines 126-171) -/

/-- The lines show_status can print. -/
inductive StatusLine where
  | rootMissing (rootPath : List String)
  | header
  | repoLine (owner name : String) (label : StatusLabel)
  | noRepos (rootPath : List String)
deriving Repr, DecidableEq

def StatusLine.isRepoLine : StatusLine → Bool
  | .repoLine _ _ _ => true
  | _ => false

/-- Everything observable about one run of a handler that only reads:
printed lines, external commands invoked, directories created, result. -/
structure StatusRun where
  output : List StatusLine
  invoked : List ExtCmd
  created : List (List String)
  result : Except String Unit
deriving Repr

/-- show_status: if the root is absent, print that and return Ok; else
print the header, then one line per scanned repository carrying its
classification (degraded to Error when classification fails), then the
no-repositories line when nothing was found. -/
def show_status (w : World) (rootExists : Bool) (rootPath : List String)
    (es : List RootEntry) : StatusRun :=
  match rootExists with
  | false =>
    { output := [.rootMissing rootPath], invoked := [], created := [],
      result := .ok () }
  | true =>
    { output := .header ::
        ((scan rootPath es).map fun ref =>
          .repoLine ref.owner ref.name (statusFor w ref.path)) ++
        (if (scan rootPath es).isEmpty then [.noRepos rootPath] else []),
      invoked := (scan rootPath es).map fun ref => .statusQuery ref.path,
      created := [],
      result := .ok () }

/-- Claim C9: Status on an absent root prints the absent-root notice and
exits zero; on a present root with no repositories it prints the
no-repositories line and exits zero — the empty state is never an error. -/
theorem show_status_empty_state_ok (w : World) (rootPath : List String)
    (es : List RootEntry) :
    ((show_status w false rootPath es).output = [.rootMissing rootPath] ∧
      exitCode (show_status w false rootPath es).result = 0) ∧
    (scan rootPath es = [] →
      (show_status w true rootPath es).output = [.header, .noRepos rootPath] ∧
      exitCode (show_status w true rootPath es).result = 0) := by
  constructor
  · exact ⟨rfl, rfl⟩
  · intro hempty
    constructor
    · simp [show_status, hempty]
    · rfl

/-- Concrete empty-state runs: absent root, and a root holding only a
stray file and an empty owner directory. -/
theorem show_status_empty_state_ok_witness :
    ((show_status (fun _ => none) false ["repo"] []).output =
        [.rootMissing ["repo"]] ∧
      exitCode (show_status (fun _ => none) false ["repo"] []).result = 0) ∧
    ((show_status (fun _ => none) true ["repo"]
        [⟨"stray.txt", false, []⟩, ⟨"alice", true, []⟩]).output =
        [.header, .noRepos ["repo"]] ∧
      exitCode (show_status (fun _ => none) true ["repo"]
        [⟨"stray.txt", false, []⟩, ⟨"alice", true, []⟩]).result = 0) := by
  exact ⟨(show_status_empty_state_ok (fun _ => none) ["repo"] []).1,
    (show_status_empty_state_ok (fun _ => none) ["repo"]
      [⟨"stray.txt", false, []⟩, ⟨"alice", true, []⟩]).2 (by decide)⟩

/-- Claim C8: a per-repository classification failure never aborts the
scan: the run still exits zero, its repository lines are exactly one per
scanned repository in scan order, and a repository whose status query
cannot be run is printed with the degraded Error label while every other
repository keeps its classified label. -/
theorem show_status_isolates_failures (w : World) (rootPath : List String)
    (es : List RootEntry) :
    exitCode (show_status w true rootPath es).result = 0 ∧
    ((show_status w true rootPath es).output.filter StatusLine.isRepoLine =
      (scan rootPath es).map fun ref =>
        .repoLine ref.owner ref.name (statusFor w ref.path)) ∧
    (∀ ref ∈ scan rootPath es, w (.statusQuery ref.path) = none →
      StatusLine.repoLine ref.owner ref.name .Error ∈
        (show_status w true rootPath es).output) ∧
    (∀ ref ∈ scan rootPath es, ∀ res, w (.statusQuery ref.path) = some res →
      StatusLine.repoLine ref.owner ref.name (get_git_status res) ∈
        (show_status w true rootPath es).output) := by
  refine ⟨rfl, ?_, ?_, ?_⟩
  · simp only [show_status]
    by_cases h : (scan rootPath es).isEmpty = true
    · simp [h, StatusLine.isRepoLine, List.filter_map, Function.comp_def]
    · simp [h, StatusLine.isRepoLine, List.filter_map, Function.comp_def]
  · intro ref href hfail
    have hst : statusFor w ref.path = .Error := by
      simp [statusFor, run_git_status, hfail]
    simp only [show_status, List.mem_cons, List.mem_append]
    exact Or.inl (Or.inr (List.mem_map.mpr ⟨ref, href, by rw [hst]⟩))
  · intro ref href res hres
    have hst : statusFor w ref.path = get_git_status res := by
      simp [statusFor, run_git_status, hres]
    simp only [show_status, List.mem_cons, List.mem_append]
    exact Or.inl (Or.inr (List.mem_map.mpr ⟨ref, href, by rw [hst]⟩))

/-- Concrete isolated-failure run: two repositories, the first one's
status query cannot be spawned, the second is clean; both lines appear. -/
theorem show_status_isolates_failures_witness :
    (StatusLine.repoLine "alice" "bad" .Error ∈
      (show_status
        (fun c => if c = .statusQuery ["repo", "alice", "bad"] then none
          else some ⟨true, [], ""⟩)
        true ["repo"]
        [⟨"alice", true, [⟨"bad", true⟩, ⟨"good", true⟩]⟩]).output) ∧
    (StatusLine.repoLine "alice" "good" .Clean ∈
      (show_status
        (fun c => if c = .statusQuery ["repo", "alice", "bad"] then none
          else some ⟨true, [], ""⟩)
        true ["repo"]
        [⟨"alice", true, [⟨"bad", true⟩, ⟨"good", true⟩]⟩]).output) := by
  constructor
  · exact (show_status_isolates_failures
      (fun c => if c = .statusQuery ["repo", "alice", "bad"] then none
        else some ⟨true, [], ""⟩) ["repo"]
      [⟨"alice", true, [⟨"bad", true⟩, ⟨"good", true⟩]⟩]).2.2.1
      ⟨"alice", "bad", ["repo", "alice", "bad"]⟩ (by decide) (by decide)
  · exact (show_status_isolates_failures
      (fun c => if c = .statusQuery ["repo", "alice", "bad"] then none
        else some ⟨true, [], ""⟩) ["repo"]
      [⟨"alice", true, [⟨"bad", true⟩, ⟨"good", true⟩]⟩]).2.2.2
      ⟨"alice", "good", ["repo", "alice", "good"]⟩ (by decide)
      ⟨true, [], ""⟩ (by decide)

/-! ## Sync command (sync_repository, main.rs lines 173-251) -/

/-- The repository lookup at the start of sync: the first owner
directory containing a directory entry literally named name wins. -/
def findSyncRepo (rootPath : List String) (es : List RootEntry)
    (name : String) : Option (List String) :=
  (es.filter (·.isDir)).findSome? fun o =>
    if o.entries.any (fun r => r.name == name && r.isDir) then
      some (rootPath ++ [o.name, name])
    else none

/-- Observable effects of one sync run. -/
structure SyncRun where
  invoked : List ExtCmd
  created : List (List String)
  nothingToCommit : Bool
  result : Except String Unit
deriving Repr

/-- sync_repository: find the repository, then in strict sequence stage
all changes, test whether the staged diff is empty (stop successfully if
so), commit, push; every failed step returns an error immediately. -/
def sync_repository (w : World) (rootPath : List String) (es : List RootEntry)
    (name message : String) : SyncRun :=
  match findSyncRepo rootPath es name with
  | none =>
    { invoked := [], created := [], nothingToCommit := false,
      result := .error ("Repository '" ++ name ++ "' not found") }
  | some repoPath =>
    match w (.stageAll repoPath) with
    | none =>
      { invoked := [.stageAll repoPath], created := [],
        nothingToCommit := false, result := .error "process error" }
    | some addRes =>
      if addRes.success = false then
        { invoked := [.stageAll repoPath], created := [],
          nothingToCommit := false,
          result := .error ("Failed to add changes: " ++ addRes.stderr) }
      else
        match w (.diffCachedQuiet repoPath) with
        | none =>
          { invoked := [.stageAll repoPath, .diffCachedQuiet repoPath],
            created := [], nothingToCommit := false,
            result := .error "process error" }
        | some diffRes =>
          if diffRes.success then
            { invoked := [.stageAll repoPath, .diffCachedQuiet repoPath],
              created := [], nothingToCommit := true, result := .ok () }
          else
            match w (.commitCmd repoPath message) with
            | none =>
              { invoked := [.stageAll repoPath, .diffCachedQuiet repoPath,
                  .commitCmd repoPath message],
                created := [], nothingToCommit := false,
                result := .error "process error" }
            | some commitRes =>
              if commitRes.success = false then
                { invoked := [.stageAll repoPath, .diffCachedQuiet repoPath,
                    .commitCmd repoPath message],
                  created := [], nothingToCommit := false,
                  result := .error ("Failed to commit: " ++ commitRes.stderr) }
              else
                match w (.pushCmd repoPath) with
                | none =>
                  { invoked := [.stageAll repoPath, .diffCachedQuiet repoPath,
                      .commitCmd repoPath message, .pushCmd repoPath],
                    created := [], nothingToCommit := false,
                    result := .error "process error" }
                | some pushRes =>
                  if pushRes.success = false then
                    { invoked := [.stageAll repoPath, .diffCachedQuiet repoPath,
                        .commitCmd repoPath message, .pushCmd repoPath],
                      created := [], nothingToCommit := false,
                      result := .error ("Failed to push: " ++ pushRes.stderr) }
                  else
                    { invoked := [.stageAll repoPath, .diffCachedQuiet repoPath,
                        .commitCmd repoPath message, .pushCmd repoPath],
                      created := [], nothingToCommit := false,
                      result := .ok () }

/-- Claim C2: when staging succeeds and the staged diff is then empty
(the emptiness query exits successfully), sync reports the
nothing-to-commit outcome, exits zero, and its invocations are exactly
the stage and the emptiness query — no commit and no push. -/
theorem sync_nothing_to_commit (w : World) (rootPath : List String)
    (es : List RootEntry) (name message : String) (repoPath : List String)
    (addRes diffRes : CmdResult)
    (hfind : findSyncRepo rootPath es name = some repoPath)
    (hadd : w (.stageAll repoPath) = some addRes)
    (haddOk : addRes.success = true)
    (hdiff : w (.diffCachedQuiet repoPath) = some diffRes)
    (hdiffOk : diffRes.success = true) :
    (sync_repository w rootPath es name message).nothingToCommit = true ∧
    exitCode (sync_repository w rootPath es name message).result = 0 ∧
    (sync_repository w rootPath es name message).invoked =
      [.stageAll repoPath, .diffCachedQuiet repoPath] ∧
    (sync_repository w rootPath es name message).invoked.all
      (fun c => ! c.isCommitOrPush) = true := by
  simp only [sync_repository, hfind, hadd, haddOk, hdiff, hdiffOk]
  refine ⟨rfl, rfl, rfl, by simp [ExtCmd.isCommitOrPush]⟩

/-- Concrete nothing-to-commit run: staging succeeds, the staged diff is
empty, no commit or push is invoked and the run exits zero. -/
theorem sync_nothing_to_commit_witness :
    (sync_repository
      (fun c => match c with
        | .stageAll _ => some ⟨true, [], ""⟩
        | .diffCachedQuiet _ => some ⟨true, [], ""⟩
        | _ => none)
      ["repo"] [⟨"alice", true, [⟨"proj", true⟩]⟩] "proj" "msg").nothingToCommit
        = true ∧
    exitCode (sync_repository
      (fun c => match c with
        | .stageAll _ => some ⟨true, [], ""⟩
        | .diffCachedQuiet _ => some ⟨true, [], ""⟩
        | _ => none)
      ["repo"] [⟨"alice", true, [⟨"proj", true⟩]⟩] "proj" "msg").result = 0 ∧
    (sync_repository
      (fun c => match c with
        | .stageAll _ => some ⟨true, [], ""⟩
        | .diffCachedQuiet _ => some ⟨true, [], ""⟩
        | _ => none)
      ["repo"] [⟨"alice", true, [⟨"proj", true⟩]⟩] "proj" "msg").invoked =
      [.stageAll ["repo", "alice", "proj"],
        .diffCachedQuiet ["repo", "alice", "proj"]] ∧
    (sync_repository
      (fun c => match c with
        | .stageAll _ => some ⟨true, [], ""⟩
        | .diffCachedQuiet _ => some ⟨true, [], ""⟩
        | _ => none)
      ["repo"] [⟨"alice", true, [⟨"proj", true⟩]⟩] "proj" "msg").invoked.all
      (fun c => ! c.isCommitOrPush) = true := by
  exact sync_nothing_to_commit
    (fun c => match c with
      | .stageAll _ => some ⟨true, [], ""⟩
      | .diffCachedQuiet _ => some ⟨true, [], ""⟩
      | _ => none)
    ["repo"] [⟨"alice", true, [⟨"proj", true⟩]⟩] "proj" "msg"
    ["repo", "alice", "proj"] ⟨true, [], ""⟩ ⟨true, [], ""⟩
    (by decide) rfl rfl rfl rfl

/-- Claim C3: sync's invocations always follow the strict stage,
emptiness check, commit, push sequence (the trace is one of its
prefixes), a failed stage stops before commit and push with a nonzero
exit, a failed commit stops before push with a nonzero exit, a failed
emptiness check stops with a nonzero exit, and a failed push still
leaves the completed stage and commit invocations in the trace (nothing
is rolled back) while exiting nonzero. -/
theorem sync_sequence_aborts_on_failure (w : World) (rootPath : List String)
    (es : List RootEntry) (name message : String) (repoPath : List String)
    (hfind : findSyncRepo rootPath es name = some repoPath) :
    ((sync_repository w rootPath es name message).invoked =
        [.stageAll repoPath] ∨
      (sync_repository w rootPath es name message).invoked =
        [.stageAll repoPath, .diffCachedQuiet repoPath] ∨
      (sync_repository w rootPath es name message).invoked =
        [.stageAll repoPath, .diffCachedQuiet repoPath,
          .commitCmd repoPath message] ∨
      (sync_repository w rootPath es name message).invoked =
        [.stageAll repoPath, .diffCachedQuiet repoPath,
          .commitCmd repoPath message, .pushCmd repoPath]) ∧
    (cmdFailed (w (.stageAll repoPath)) = true →
      (sync_repository w rootPath es name message).invoked =
        [.stageAll repoPath] ∧
      exitCode (sync_repository w rootPath es name message).result ≠ 0) ∧
    (cmdFailed (w (.stageAll repoPath)) = false →
      w (.diffCachedQuiet repoPath) = none →
      (sync_repository w rootPath es name message).invoked =
        [.stageAll repoPath, .diffCachedQuiet repoPath] ∧
      exitCode (sync_repository w rootPath es name message).result ≠ 0) ∧
    (∀ diffRes, cmdFailed (w (.stageAll repoPath)) = false →
      w (.diffCachedQuiet repoPath) = some diffRes → diffRes.success = false →
      cmdFailed (w (.commitCmd repoPath message)) = true →
      (sync_repository w rootPath es name message).invoked =
        [.stageAll repoPath, .diffCachedQuiet repoPath,
          .commitCmd repoPath message] ∧
      exitCode (sync_repository w rootPath es name message).result ≠ 0) ∧
    (∀ diffRes, cmdFailed (w (.stageAll repoPath)) = false →
      w (.diffCachedQuiet repoPath) = some diffRes → diffRes.success = false →
      cmdFailed (w (.commitCmd repoPath message)) = false →
      cmdFailed (w (.pushCmd repoPath)) = true →
      (sync_repository w rootPath es name message).invoked =
        [.stageAll repoPath, .diffCachedQuiet repoPath,
          .commitCmd repoPath message, .pushCmd repoPath] ∧
      .commitCmd repoPath message ∈
        (sync_repository w rootPath es name message).invoked ∧
      exitCode (sync_repository w rootPath es name message).result ≠ 0) := by
  refine ⟨?_, ?_, ?_, ?_, ?_⟩
  · simp only [sync_repository, hfind]
    rcases hadd : w (.stageAll repoPath) with _ | addRes
    · simp
    · rcases haddOk : addRes.success with _ | _
      · simp [haddOk]
      · rcases hdiff : w (.diffCachedQuiet repoPath) with _ | diffRes
        · simp [haddOk]
        · rcases hdiffOk : diffRes.success with _ | _
          · rcases hcommit : w (.commitCmd repoPath message) with _ | commitRes
            · simp [haddOk, hdiffOk]
            · rcases hcommitOk : commitRes.success with _ | _
              · simp [haddOk, hdiffOk, hcommitOk]
              · rcases hpush : w (.pushCmd repoPath) with _ | pushRes
                · simp [haddOk, hdiffOk, hcommitOk]
                · rcases hpushOk : pushRes.success with _ | _ <;>
                    simp [haddOk, hdiffOk, hcommitOk, hpushOk]
          · simp [haddOk, hdiffOk]
  · intro hfail
    simp only [sync_repository, hfind]
    rcases hadd : w (.stageAll repoPath) with _ | addRes
    · exact ⟨rfl, by simp [exitCode]⟩
    · rw [hadd] at hfail
      rcases hsucc : addRes.success with _ | _
      · simp [hsucc, exitCode]
      · simp [cmdFailed, hsucc] at hfail
  · intro hok hdiff
    rcases hadd : w (.stageAll repoPath) with _ | addRes
    · rw [hadd] at hok; simp [cmdFailed] at hok
    · rw [hadd] at hok
      rcases hsucc : addRes.success with _ | _
      · simp [cmdFailed, hsucc] at hok
      · simp [sync_repository, hfind, hadd, hsucc, hdiff, exitCode]
  · intro diffRes hok hdiff hdiffFail hcommitFail
    rcases hadd : w (.stageAll repoPath) with _ | addRes
    · rw [hadd] at hok; simp [cmdFailed] at hok
    · rw [hadd] at hok
      rcases hsucc : addRes.success with _ | _
      · simp [cmdFailed, hsucc] at hok
      · rcases hcommit : w (.commitCmd repoPath message) with _ | commitRes
        · simp [sync_repository, hfind, hadd, hsucc, hdiff, hdiffFail, hcommit,
            exitCode]
        · rw [hcommit] at hcommitFail
          rcases hcsucc : commitRes.success with _ | _
          · simp [sync_repository, hfind, hadd, hsucc, hdiff, hdiffFail,
              hcommit, hcsucc, exitCode]
          · simp [cmdFailed, hcsucc] at hcommitFail
  · intro diffRes hok hdiff hdiffFail hcommitOk hpushFail
    rcases hadd : w (.stageAll repoPath) with _ | addRes
    · rw [hadd] at hok; simp [cmdFailed] at hok
    · rw [hadd] at hok
      rcases hsucc : addRes.success with _ | _
      · simp [cmdFailed, hsucc] at hok
      · rcases hcommit : w (.commitCmd repoPath message) with _ | commitRes
        · rw [hcommit] at hcommitOk; simp [cmdFailed] at hcommitOk
        · rw [hcommit] at hcommitOk
          rcases hcsucc : commitRes.success with _ | _
          · simp [cmdFailed, hcsucc] at hcommitOk
          · rcases hpush : w (.pushCmd repoPath) with _ | pushRes
            · simp [sync_repository, hfind, hadd, hsucc, hdiff, hdiffFail,
                hcommit, hcsucc, hpush, exitCode]
            · rw [hpush] at hpushFail
              rcases hpsucc : pushRes.success with _ | _
              · simp [sync_repository, hfind, hadd, hsucc, hdiff, hdiffFail,
                  hcommit, hcsucc, hpush, hpsucc, exitCode]
              · simp [cmdFailed, hpsucc] at hpushFail

/-- Concrete aborted runs: a failed stage invokes nothing further; a
failed commit invokes no push; a failed push leaves the commit in the
trace; each exits nonzero. -/
theorem sync_sequence_aborts_on_failure_witness :
    ((sync_repository (fun _ => some ⟨false, [], ""⟩)
        ["repo"] [⟨"alice", true, [⟨"proj", true⟩]⟩] "proj" "m").invoked =
      [.stageAll ["repo", "alice", "proj"]] ∧
      exitCode (sync_repository (fun _ => some ⟨false, [], ""⟩)
        ["repo"] [⟨"alice", true, [⟨"proj", true⟩]⟩] "proj" "m").result ≠ 0) ∧
    ((sync_repository
        (fun c => match c with
          | .stageAll _ => some ⟨true, [], ""⟩
          | _ => some ⟨false, [], ""⟩)
        ["repo"] [⟨"alice", true, [⟨"proj", true⟩]⟩] "proj" "m").invoked =
      [.stageAll ["repo", "alice", "proj"],
        .diffCachedQuiet ["repo", "alice", "proj"],
        .commitCmd ["repo", "alice", "proj"] "m"] ∧
      exitCode (sync_repository
        (fun c => match c with
          | .stageAll _ => some ⟨true, [], ""⟩
          | _ => some ⟨false, [], ""⟩)
        ["repo"] [⟨"alice", true, [⟨"proj", true⟩]⟩] "proj" "m").result ≠ 0) ∧
    ((sync_repository
        (fun c => match c with
          | .stageAll _ => some ⟨true, [], ""⟩
          | .commitCmd _ _ => some ⟨true, [], ""⟩
          | _ => some ⟨false, [], ""⟩)
        ["repo"] [⟨"alice", true, [⟨"proj", true⟩]⟩] "proj" "m").invoked =
      [.stageAll ["repo", "alice", "proj"],
        .diffCachedQuiet ["repo", "alice", "proj"],
        .commitCmd ["repo", "alice", "proj"] "m",
        .pushCmd ["repo", "alice", "proj"]] ∧
      .commitCmd ["repo", "alice", "proj"] "m" ∈
        (sync_repository
          (fun c => match c with
            | .stageAll _ => some ⟨true, [], ""⟩
            | .commitCmd _ _ => some ⟨true, [], ""⟩
            | _ => some ⟨false, [], ""⟩)
          ["repo"] [⟨"alice", true, [⟨"proj", true⟩]⟩] "proj" "m").invoked ∧
      exitCode (sync_repository
        (fun c => match c with
          | .stageAll _ => some ⟨true, [], ""⟩
          | .commitCmd _ _ => some ⟨true, [], ""⟩
          | _ => some ⟨false, [], ""⟩)
        ["repo"] [⟨"alice", true, [⟨"proj", true⟩]⟩] "proj" "m").result ≠ 0) := by
  refine ⟨?_, ?_, ?_⟩
  · exact (sync_sequence_aborts_on_failure (fun _ => some ⟨false, [], ""⟩)
      ["repo"] [⟨"alice", true, [⟨"proj", true⟩]⟩] "proj" "m"
      ["repo", "alice", "proj"] (by decide)).2.1 rfl
  · exact (sync_sequence_aborts_on_failure
      (fun c => match c with
        | .stageAll _ => some ⟨true, [], ""⟩
        | _ => some ⟨false, [], ""⟩)
      ["repo"] [⟨"alice", true, [⟨"proj", true⟩]⟩] "proj" "m"
      ["repo", "alice", "proj"] (by decide)).2.2.2.1
      ⟨false, [], ""⟩ rfl rfl rfl rfl
  · exact (sync_sequence_aborts_on_failure
      (fun c => match c with
        | .stageAll _ => some ⟨true, [], ""⟩
        | .commitCmd _ _ => some ⟨true, [], ""⟩
        | _ => some ⟨false, [], ""⟩)
      ["repo"] [⟨"alice", true, [⟨"proj", true⟩]⟩] "proj" "m"
      ["repo", "alice", "proj"] (by decide)).2.2.2.2
      ⟨false, [], ""⟩ rfl rfl rfl rfl rfl

/-! ## Cd command (cd_repository, main.rs lines 253-330) -/

/-- What one cd run reports. -/
inductive CdOutcome where
  | rootMissing (rootPath : List String)
  | directFound (path : List String)
  | directNotFound (path : List String)
  | notFound (query : String)
  | single (path : List String)
  | multiple (ms : List (String × String × List String))
deriving Repr, DecidableEq

/-- Observable effects of one cd run: outcome, whether the repository
tree was scanned, external commands invoked, directories created. -/
structure CdRun where
  outcome : CdOutcome
  didScan : Bool
  invoked : List ExtCmd
  created : List (List String)
deriving Repr, DecidableEq

/-- The match collection of cd's bare-name search: every directory/
directory pair whose repository name equals the query exactly or
contains the lowercased query as a substring of its lowercased name. -/
def cd_matches (rootPath : List String) (es : List RootEntry)
    (name : String) : List (String × String × List String) :=
  (es.filter (·.isDir)).flatMap fun o =>
    (o.entries.filter (·.isDir)).filterMap fun r =>
      if r.name = name then
        some (o.name, r.name, rootPath ++ [o.name, r.name])
      else if strContains (strToLower r.name) (strToLower name) then
        some (o.name, r.name, rootPath ++ [o.name, r.name])
      else none

/-- cd_repository: absent root reports and stops; a query that contains
a separator and splits into exactly two parts is resolved by a direct
existence check with no scan; any other query scans and dispatches on
the number of matches. -/
def cd_repository (rootPath : List String) (rootExists : Bool)
    (es : List RootEntry) (fsExists : List String → Bool)
    (name : String) : CdRun :=
  match rootExists with
  | false => ⟨.rootMissing rootPath, false, [], []⟩
  | true =>
    if name.toList.contains '/' = true ∧ (splitSlash name).length = 2 then
      if fsExists (rootPath ++ [(splitSlash name).getD 0 "",
          (splitSlash name).getD 1 ""]) then
        ⟨.directFound (rootPath ++ [(splitSlash name).getD 0 "",
          (splitSlash name).getD 1 ""]), false, [], []⟩
      else
        ⟨.directNotFound (rootPath ++ [(splitSlash name).getD 0 "",
          (splitSlash name).getD 1 ""]), false, [], []⟩
    else
      match cd_matches rootPath es name with
      | [] => ⟨.notFound name, true, [], []⟩
      | [m] => ⟨.single m.2.2, true, [], []⟩
      | m1 :: m2 :: rest => ⟨.multiple (m1 :: m2 :: rest), true, [], []⟩

/-- A character split never returns an empty part list. -/
theorem splitOnChar_ne_nil (sep : Char) (l : List Char) :
    splitOnChar sep l ≠ [] := by
  induction l with
  | nil => simp [splitOnChar]
  | cons c cs ih =>
    rw [splitOnChar]
    split
    · simp
    · rcases h : splitOnChar sep cs with _ | ⟨r, rs⟩
      · exact absurd h ih
      · simp

/-- A character split has one more part than the separator count. -/
theorem splitOnChar_length (sep : Char) (l : List Char) :
    (splitOnChar sep l).length = l.count sep + 1 := by
  induction l with
  | nil => simp [splitOnChar]
  | cons c cs ih =>
    rw [splitOnChar]
    by_cases h : c = sep
    · subst h
      simp [List.count_cons, ih]
    · rcases hs : splitOnChar sep cs with _ | ⟨r, rs⟩
      · exact absurd hs (splitOnChar_ne_nil sep cs)
      · rw [hs] at ih
        simp only [List.length_cons] at ih ⊢
        simp [List.count_cons, h, Ne.symm h]
        omega

/-- A character counted at least once is reported by contains. -/
theorem count_ne_zero_contains (a : Char) (l : List Char)
    (h : l.count a ≠ 0) : l.contains a = true := by
  induction l with
  | nil => simp at h
  | cons c cs ih =>
    rw [List.contains_cons]
    by_cases hc : a = c
    · simp [hc]
    · rw [beq_eq_false_iff_ne.mpr hc, Bool.false_or]
      apply ih
      intro h0
      apply h
      rw [List.count_cons, beq_eq_false_iff_ne.mpr (Ne.symm hc)]
      simp [h0]

/-- Claim C5: a query with exactly one separator never scans: the run
reports the direct existence check at root/owner/name (found or not),
scans nothing, and invokes nothing; an absent root also never scans. -/
theorem cd_separator_no_scan (rootPath : List String) (rootExists : Bool)
    (es : List RootEntry) (fsExists : List String → Bool) (name : String)
    (hcount : name.toList.count '/' = 1) :
    (cd_repository rootPath rootExists es fsExists name).didScan = false ∧
    (cd_repository rootPath rootExists es fsExists name).invoked = [] ∧
    (rootExists = true →
      (cd_repository rootPath true es fsExists name).outcome =
        (if fsExists (rootPath ++ [(splitSlash name).getD 0 "",
            (splitSlash name).getD 1 ""]) = true then
          .directFound (rootPath ++ [(splitSlash name).getD 0 "",
            (splitSlash name).getD 1 ""])
        else
          .directNotFound (rootPath ++ [(splitSlash name).getD 0 "",
            (splitSlash name).getD 1 ""]))) := by
  have hcontains : name.toList.contains '/' = true :=
    count_ne_zero_contains '/' name.toList (by omega)
  have hlen : (splitSlash name).length = 2 := by
    rw [splitSlash, List.length_map, splitOnChar_length]
    omega
  rcases rootExists with _ | _
  · exact ⟨rfl, rfl, by intro h; exact absurd h (by simp)⟩
  · refine ⟨?_, ?_, ?_⟩
    · simp only [cd_repository, if_pos (And.intro hcontains hlen)]
      split <;> rfl
    · simp only [cd_repository, if_pos (And.intro hcontains hlen)]
      split <;> rfl
    · intro _
      simp only [cd_repository, if_pos (And.intro hcontains hlen)]
      split <;> rfl

/-- Concrete separator query: alice/proj resolves directly against an
existence oracle and performs no scan. -/
theorem cd_separator_no_scan_witness :
    (cd_repository ["repo"] true [] (fun _ => true) "alice/proj").didScan
      = false ∧
    (cd_repository ["repo"] true [] (fun _ => true) "alice/proj").invoked
      = [] ∧
    (cd_repository ["repo"] true [] (fun _ => true) "alice/proj").outcome =
      .directFound ["repo", "alice", "proj"] := by
  have h := cd_separator_no_scan ["repo"] true [] (fun _ => true)
    "alice/proj" (by decide)
  refine ⟨h.1, h.2.1, ?_⟩
  rw [h.2.2 rfl]
  decide

/-- Claim C4: for a separator-free query the match set is exactly the
scanned repositories whose directory name equals the query or whose
lowercased name contains the lowercased query; zero matches report
not-found, one match emits that repository's path, several matches list
all of them and ask for the owner/name form; the tree is scanned. -/
theorem cd_bare_query_matches (rootPath : List String) (es : List RootEntry)
    (fsExists : List String → Bool) (name : String)
    (hsep : name.toList.contains '/' = false) :
    (∀ m, m ∈ cd_matches rootPath es name ↔
      ∃ o ∈ es, o.isDir = true ∧ ∃ r ∈ o.entries, r.isDir = true ∧
        (r.name = name ∨
          strContains (strToLower r.name) (strToLower name) = true) ∧
        m = (o.name, r.name, rootPath ++ [o.name, r.name])) ∧
    (cd_repository rootPath true es fsExists name).didScan = true ∧
    (cd_matches rootPath es name = [] →
      (cd_repository rootPath true es fsExists name).outcome =
        .notFound name) ∧
    (∀ m, cd_matches rootPath es name = [m] →
      (cd_repository rootPath true es fsExists name).outcome =
        .single m.2.2) ∧
    (2 ≤ (cd_matches rootPath es name).length →
      (cd_repository rootPath true es fsExists name).outcome =
        .multiple (cd_matches rootPath es name)) := by
  have hcond : ¬(name.toList.contains '/' = true ∧
      (splitSlash name).length = 2) := by
    rintro ⟨hc, _⟩
    rw [hsep] at hc
    exact Bool.false_ne_true hc
  refine ⟨?_, ?_, ?_, ?_, ?_⟩
  · intro m
    simp only [cd_matches, List.mem_flatMap, List.mem_filterMap,
      List.mem_filter]
    constructor
    · rintro ⟨o, ⟨ho, hodir⟩, r, ⟨hr, hrdir⟩, hsome⟩
      by_cases h1 : r.name = name
      · rw [if_pos h1] at hsome
        exact ⟨o, ho, hodir, r, hr, hrdir, Or.inl h1,
          (Option.some.injEq _ _).mp hsome.symm⟩
      · rw [if_neg h1] at hsome
        by_cases h2 : strContains (strToLower r.name) (strToLower name) = true
        · rw [if_pos h2] at hsome
          exact ⟨o, ho, hodir, r, hr, hrdir, Or.inr h2,
            (Option.some.injEq _ _).mp hsome.symm⟩
        · rw [if_neg h2] at hsome
          exact absurd hsome (Option.noConfusion)
    · rintro ⟨o, ho, hodir, r, hr, hrdir, hcondm, rfl⟩
      refine ⟨o, ⟨ho, hodir⟩, r, ⟨hr, hrdir⟩, ?_⟩
      by_cases h1 : r.name = name
      · rw [if_pos h1]
      · rw [if_neg h1]
        rcases hcondm with h | h
        · exact absurd h h1
        · rw [if_pos h]
  · simp only [cd_repository, if_neg hcond]
    rcases hms : cd_matches rootPath es name with _ | ⟨m1, _ | ⟨m2, rest⟩⟩ <;>
      rfl
  · intro hms
    simp only [cd_repository, if_neg hcond, hms]
  · intro m hms
    simp only [cd_repository, if_neg hcond, hms]
  · intro hlen
    simp only [cd_repository, if_neg hcond]
    rcases hms : cd_matches rootPath es name with _ | ⟨m1, _ | ⟨m2, rest⟩⟩
    · rw [hms] at hlen; simp at hlen
    · rw [hms] at hlen; simp at hlen
    · rfl

/-- Concrete bare-query run reproducing the spec example: repositories
foo, foobar and baz under query foo match foo and foobar, not baz, and
the run lists both and scans. -/
theorem cd_bare_query_matches_witness :
    ((("alice", "foo", ["repo", "alice", "foo"]) :
        String × String × List String) ∈
      cd_matches ["repo"]
        [⟨"alice", true, [⟨"foo", true⟩, ⟨"foobar", true⟩, ⟨"baz", true⟩]⟩]
        "foo") ∧
    (cd_repository ["repo"] true
      [⟨"alice", true, [⟨"foo", true⟩, ⟨"foobar", true⟩, ⟨"baz", true⟩]⟩]
      (fun _ => false) "foo").didScan = true ∧
    (cd_repository ["repo"] true
      [⟨"alice", true, [⟨"foo", true⟩, ⟨"foobar", true⟩, ⟨"baz", true⟩]⟩]
      (fun _ => false) "foo").outcome =
      .multiple [("alice", "foo", ["repo", "alice", "foo"]),
        ("alice", "foobar", ["repo", "alice", "foobar"])] := by
  have h := cd_bare_query_matches ["repo"]
    [⟨"alice", true, [⟨"foo", true⟩, ⟨"foobar", true⟩, ⟨"baz", true⟩]⟩]
    (fun _ => false) "foo" (by decide)
  have hms : cd_matches ["repo"]
      [⟨"alice", true, [⟨"foo", true⟩, ⟨"foobar", true⟩, ⟨"baz", true⟩]⟩]
      "foo" =
      [("alice", "foo", ["repo", "alice", "foo"]),
        ("alice", "foobar", ["repo", "alice", "foobar"])] := by decide
  refine ⟨?_, h.2.1, ?_⟩
  · exact (h.1 ("alice", "foo", ["repo", "alice", "foo"])).mpr
      ⟨⟨"alice", true, [⟨"foo", true⟩, ⟨"foobar", true⟩, ⟨"baz", true⟩]⟩,
        by decide, rfl, ⟨"foo", true⟩, by decide, rfl, Or.inl rfl, rfl⟩
  · rw [h.2.2.2.2 (by rw [hms]; decide), hms]

/-! ## Add command (clone_repository, main.rs lines 57-89) -/

/-- Directory existence: the filesystem is the list of existing paths. -/
def pathExists (fs : List (List String)) (p : List String) : Bool :=
  fs.contains p

/-- Observable effects of one Add run: the filesystem afterwards, the
external commands invoked, the directories created, and the result. -/
structure CloneRun where
  fs : List (List String)
  invoked : List ExtCmd
  created : List (List String)
  result : Except String Unit
deriving Repr

/-- clone_repository: ensure the root exists (creating it if absent);
if root/owner/repo already exists report success without cloning; else
create the owner directory if absent and run git clone with the
templated remote URL, the target directory existing afterwards exactly
when the clone succeeded. -/
def clone_repository (w : World) (rootPath : List String)
    (fs : List (List String)) (owner repo : String) : CloneRun :=
  let fs1 := if pathExists fs rootPath then fs else rootPath :: fs
  let created1 : List (List String) :=
    if pathExists fs rootPath then [] else [rootPath]
  if pathExists fs1 (rootPath ++ [owner, repo]) then
    { fs := fs1, invoked := [], created := created1, result := .ok () }
  else
    let fs2 := if pathExists fs1 (rootPath ++ [owner]) then fs1
      else (rootPath ++ [owner]) :: fs1
    let created2 := created1 ++
      (if pathExists fs1 (rootPath ++ [owner]) then [] else [rootPath ++ [owner]])
    let url := "git@github.com:" ++ owner ++ "/" ++ repo ++ ".git"
    match w (.cloneCmd url (rootPath ++ [owner, repo])) with
    | none =>
      { fs := fs2, invoked := [.cloneCmd url (rootPath ++ [owner, repo])],
        created := created2, result := .error "process error" }
    | some res =>
      if res.success then
        { fs := (rootPath ++ [owner, repo]) :: fs2,
          invoked := [.cloneCmd url (rootPath ++ [owner, repo])],
          created := created2 ++ [rootPath ++ [owner, repo]],
          result := .ok () }
      else
        { fs := fs2, invoked := [.cloneCmd url (rootPath ++ [owner, repo])],
          created := created2,
          result := .error ("Failed to clone repository: " ++ res.stderr) }

/-- A path present in a filesystem is still present after adding one. -/
theorem pathExists_cons (q p : List String) (fs : List (List String))
    (h : pathExists fs p = true) : pathExists (q :: fs) p = true := by
  simp only [pathExists] at h ⊢
  rw [List.contains_cons, h, Bool.or_true]

/-- The repository root exists after any Add run. -/
theorem clone_root_exists (w : World) (rootPath : List String)
    (fs : List (List String)) (owner repo : String) :
    pathExists (clone_repository w rootPath fs owner repo).fs rootPath
      = true := by
  by_cases h1 : pathExists fs rootPath = true
  · have hroot1 : pathExists fs rootPath = true := h1
    simp only [clone_repository, if_pos h1]
    split
    · exact hroot1
    · split
      · split
        · exact hroot1
        · exact pathExists_cons _ _ _ hroot1
      · split
        · apply pathExists_cons
          split
          · exact hroot1
          · exact pathExists_cons _ _ _ hroot1
        · split
          · exact hroot1
          · exact pathExists_cons _ _ _ hroot1
  · have hroot1 : pathExists (rootPath :: fs) rootPath = true := by
      simp [pathExists, List.contains_cons]
    simp only [clone_repository, if_neg h1]
    split
    · exact hroot1
    · split
      · split
        · exact hroot1
        · exact pathExists_cons _ _ _ hroot1
      · split
        · apply pathExists_cons
          split
          · exact hroot1
          · exact pathExists_cons _ _ _ hroot1
        · split
          · exact hroot1
          · exact pathExists_cons _ _ _ hroot1

/-- After a successful Add, the target directory exists. -/
theorem clone_ok_target_exists (w : World) (rootPath : List String)
    (fs : List (List String)) (owner repo : String)
    (hok : (clone_repository w rootPath fs owner repo).result = .ok ()) :
    pathExists (clone_repository w rootPath fs owner repo).fs
      (rootPath ++ [owner, repo]) = true := by
  by_cases h1 : pathExists fs rootPath = true
  · simp only [clone_repository, if_pos h1] at hok ⊢
    split at hok
    · rename_i htgt
      rw [if_pos htgt]
      exact htgt
    · rename_i htgt
      rw [if_neg htgt]
      split at hok
      · simp at hok
      · rename_i res heq
        split at hok
        · rename_i hsucc
          rw [if_pos hsucc]
          simp [pathExists]
        · simp at hok
  · simp only [clone_repository, if_neg h1] at hok ⊢
    split at hok
    · rename_i htgt
      rw [if_pos htgt]
      exact htgt
    · rename_i htgt
      rw [if_neg htgt]
      split at hok
      · simp at hok
      · rename_i res heq
        split at hok
        · rename_i hsucc
          rw [if_pos hsucc]
          simp [pathExists]
        · simp at hok

/-- One Add run invokes the external tool at most once. -/
theorem clone_invoked_le_one (w : World) (rootPath : List String)
    (fs : List (List String)) (owner repo : String) :
    (clone_repository w rootPath fs owner repo).invoked.length ≤ 1 := by
  by_cases h1 : pathExists fs rootPath = true
  · simp only [clone_repository, if_pos h1]
    split
    · simp
    · split
      · simp
      · split <;> simp
  · simp only [clone_repository, if_neg h1]
    split
    · simp
    · split
      · simp
      · split <;> simp

/-- When the target directory already exists (and the root does), Add
is a no-op success: no clone invocation, nothing created, filesystem
unchanged. -/
theorem clone_existing_noop (w : World) (rootPath : List String)
    (fs : List (List String)) (owner repo : String)
    (hroot : pathExists fs rootPath = true)
    (htgt : pathExists fs (rootPath ++ [owner, repo]) = true) :
    clone_repository w rootPath fs owner repo =
      { fs := fs, invoked := [], created := [], result := .ok () } := by
  simp only [clone_repository, hroot, if_true, htgt]

/-- Claim C7: Add is idempotent. If the target already exists, Add
reports success and performs no clone invocation; and after any
successful Add, running Add again with the same owner and repo is a
no-op success that invokes no clone and leaves the filesystem unchanged,
so the two calls together invoke the clone at most once. -/
theorem add_idempotent (w : World) (rootPath : List String)
    (fs : List (List String)) (owner repo : String) :
    (pathExists fs rootPath = true →
      pathExists fs (rootPath ++ [owner, repo]) = true →
      (clone_repository w rootPath fs owner repo).invoked = [] ∧
      (clone_repository w rootPath fs owner repo).result = .ok ()) ∧
    ((clone_repository w rootPath fs owner repo).result = .ok () →
      (clone_repository w rootPath
        (clone_repository w rootPath fs owner repo).fs owner repo) =
        { fs := (clone_repository w rootPath fs owner repo).fs,
          invoked := [], created := [], result := .ok () } ∧
      ((clone_repository w rootPath fs owner repo).invoked ++
        (clone_repository w rootPath
          (clone_repository w rootPath fs owner repo).fs owner repo).invoked).length
        ≤ 1) := by
  constructor
  · intro hroot htgt
    rw [clone_existing_noop w rootPath fs owner repo hroot htgt]
    exact ⟨rfl, rfl⟩
  · intro hok
    have htgt := clone_ok_target_exists w rootPath fs owner repo hok
    have hroot := clone_root_exists w rootPath fs owner repo
    have hsecond := clone_existing_noop w rootPath
      (clone_repository w rootPath fs owner repo).fs owner repo hroot htgt
    refine ⟨hsecond, ?_⟩
    rw [hsecond]
    simpa using clone_invoked_le_one w rootPath fs owner repo

/-- Concrete idempotence run: a fresh filesystem holding only the root,
a world where the clone succeeds: the first Add succeeds and the second
Add is a no-op success, with at most one clone invocation overall. -/
theorem add_idempotent_witness :
    (clone_repository (fun _ => some ⟨true, [], ""⟩) ["repo"] [["repo"]]
      "alice" "proj").result = .ok () ∧
    (clone_repository (fun _ => some ⟨true, [], ""⟩) ["repo"]
      (clone_repository (fun _ => some ⟨true, [], ""⟩) ["repo"] [["repo"]]
        "alice" "proj").fs "alice" "proj") =
      { fs := (clone_repository (fun _ => some ⟨true, [], ""⟩) ["repo"]
          [["repo"]] "alice" "proj").fs,
        invoked := [], created := [], result := .ok () } ∧
    ((clone_repository (fun _ => some ⟨true, [], ""⟩) ["repo"] [["repo"]]
        "alice" "proj").invoked ++
      (clone_repository (fun _ => some ⟨true, [], ""⟩) ["repo"]
        (clone_repository (fun _ => some ⟨true, [], ""⟩) ["repo"] [["repo"]]
          "alice" "proj").fs "alice" "proj").invoked).length ≤ 1 := by
  have h := add_idempotent (fun _ => some ⟨true, [], ""⟩) ["repo"] [["repo"]]
    "alice" "proj"
  exact ⟨rfl, (h.2 rfl).1, (h.2 rfl).2⟩

/-! ## Frame conditions of the read-only commands -/

/-- Claim C10: Status and Cd are read-only. Every external command a
Status run invokes is the non-mutating status query, and a Status run
creates no directories; a Cd run invokes no external command at all and
creates no directories. The mutating operations (clone, stage, commit,
push) can therefore only be issued by Add and Sync. -/
theorem status_cd_read_only (w : World) (rootExists : Bool)
    (rootPath : List String) (es : List RootEntry)
    (fsExists : List String → Bool) (name : String) :
    (show_status w rootExists rootPath es).invoked.all
      (fun c => ! c.isMutating) = true ∧
    (show_status w rootExists rootPath es).invoked.all
      (fun c => c.isStatusQuery) = true ∧
    (show_status w rootExists rootPath es).created = [] ∧
    (cd_repository rootPath rootExists es fsExists name).invoked = [] ∧
    (cd_repository rootPath rootExists es fsExists name).created = [] := by
  refine ⟨?_, ?_, ?_, ?_, ?_⟩
  · rcases rootExists with _ | _
    · rfl
    · simp [show_status, List.all_eq_true, List.mem_map, ExtCmd.isMutating]
  · rcases rootExists with _ | _
    · rfl
    · simp [show_status, List.all_eq_true, List.mem_map, ExtCmd.isStatusQuery]
  · rcases rootExists with _ | _ <;> rfl
  · rcases rootExists with _ | _
    · rfl
    · simp only [cd_repository]
      split
      · split <;> rfl
      · split <;> rfl
  · rcases rootExists with _ | _
    · rfl
    · simp only [cd_repository]
      split
      · split <;> rfl
      · split <;> rfl

end Repman
